import Mathlib

/-!
Verification of the Glenda filesystem services (extfs, fatfs, initrdfs)
against their natural-language specification.  The Rust sources are
shallowly embedded: a block device is a function from byte offset to
byte value, machine integers become `Nat` with explicit `% 2^w` at the
points where the Rust code performs a narrowing cast, and fallible
operations return `Except Err`.
-/

set_option maxRecDepth 8192

namespace GlendaFs

/-- A block device's content: byte value at each absolute byte offset. -/
abbrev Disk := Nat → Nat

/-- The bytes of the device in the range `[off, off+len)`. -/
def deviceBytes (d : Disk) (off len : Nat) : List Nat :=
  (List.range len).map (fun i => d (off + i))

/-- Error codes surfaced by the services (glenda::error::Error). -/
inductive Err where
  | NotFound
  | InvalidArgs
  | IoError
  | DeviceError
  | MessageTooLong
  | NotSupported
  | NotImplemented
  | NotInitialized
  | InternalError
  | Unknown
deriving DecidableEq, Repr

/-- A block driver: the device bytes together with a predicate saying
which `(offset, length)` driver requests succeed. -/
structure Driver where
  data : Disk
  ok : Nat → Nat → Bool

/-- `BlockClient::read_at(offset, len, buf)`: returns the device bytes of
`[offset, offset+len)` when the driver accepts the request. -/
def readAt (dr : Driver) (off len : Nat) : Except Err (List Nat) :=
  if dr.ok off len then .ok (deviceBytes dr.data off len) else .error .IoError

/-- `BlockReader::read_offset` (src/extfs/src/block.rs:46 and
src/fatfs/src/block.rs:51): byte read through the 4096-byte-block facade.
Returns the bytes placed into the caller's buffer. -/
def read_offset (dr : Driver) (off len : Nat) : Except Err (List Nat) :=
  if len = 0 then .ok [] else
  let blockSize := 4096
  let startBlock := off / blockSize
  let endBlock := (off + len + (blockSize - 1)) / blockSize
  let readSize := (endBlock - startBlock) * blockSize
  if off % blockSize = 0 ∧ len = readSize then
    readAt dr off len
  else
    (readAt dr (startBlock * blockSize) readSize).map
      (fun temp => (temp.drop (off % blockSize)).take len)

/-- The driver request `(offset, length)` that `read_offset` issues:
either the caller's own range (direct path) or the enclosing aligned
range (temporary-buffer path). -/
def read_offset_call (off len : Nat) : Nat × Nat :=
  let blockSize := 4096
  let startBlock := off / blockSize
  let endBlock := (off + len + (blockSize - 1)) / blockSize
  let readSize := (endBlock - startBlock) * blockSize
  if off % blockSize = 0 ∧ len = readSize then (off, len)
  else (startBlock * blockSize, readSize)

@[simp] theorem deviceBytes_length (d : Disk) (off len : Nat) :
    (deviceBytes d off len).length = len := by
  simp [deviceBytes]

theorem deviceBytes_getElem (d : Disk) (off len i : Nat)
    (h : i < (deviceBytes d off len).length) :
    (deviceBytes d off len)[i] = d (off + i) := by
  simp [deviceBytes]

/-- Slicing bytes of a larger aligned range gives the bytes of the
sub-range. -/
theorem deviceBytes_slice (d : Disk) (a n i m : Nat) (h : i + m ≤ n) :
    ((deviceBytes d a n).drop i).take m = deviceBytes d (a + i) m := by
  apply List.ext_getElem
  · simp [deviceBytes]
    omega
  · intro j h1 h2
    have hj : j < m := by simpa [deviceBytes] using h2
    have hjn : i + j < n := by omega
    simp only [List.getElem_take, List.getElem_drop]
    rw [deviceBytes_getElem d a n (i + j) (by simpa using hjn),
      deviceBytes_getElem d (a + i) m j (by simpa using hj)]
    ring_nf

theorem ceil_div_mul_ge (x k : Nat) (hk : 0 < k) : x ≤ ((x + (k - 1)) / k) * k := by
  rw [Nat.mul_comm]
  have h1 := Nat.div_add_mod (x + (k - 1)) k
  have h2 := Nat.mod_lt (x + (k - 1)) hk
  omega

theorem div_mul_le (x k : Nat) : (x / k) * k ≤ x := by
  have := Nat.div_mul_le_self x k
  omega

/-- C1: for every device offset `off` and non-empty buffer length `len`,
`read_offset(off, buf)` succeeds exactly when the driver read of the
enclosing 4096-byte-aligned block range succeeds, and on success the
buffer holds the bytes of that enclosing range sliced at
`[off % 4096, off % 4096 + len)`; when `off` is 4096-aligned and `len`
exactly fills the enclosing range, the driver read is issued directly
with the caller's offset and length (the caller's buffer). -/
theorem C1_block_alignment (dr : Driver) (off len : Nat) (hlen : 0 < len) :
    ((read_offset dr off len).isOk
        = dr.ok ((off / 4096) * 4096) (((off + len + 4095) / 4096 - off / 4096) * 4096))
    ∧ (∀ r, read_offset dr off len = .ok r →
        r.length = len ∧
        r = ((deviceBytes dr.data ((off / 4096) * 4096)
              (((off + len + 4095) / 4096 - off / 4096) * 4096)).drop (off % 4096)).take len)
    ∧ (off % 4096 = 0 → len % 4096 = 0 → read_offset_call off len = (off, len)) := by
  have h0 : ¬ len = 0 := by omega
  have hbound : off % 4096 + len ≤ ((off + len + 4095) / 4096 - off / 4096) * 4096 := by
    omega
  refine ⟨?_, ?_, ?_⟩
  · unfold read_offset readAt
    simp only [h0, if_false]
    by_cases hd : off % 4096 = 0 ∧ len = ((off + len + 4095) / 4096 - off / 4096) * 4096
    · have hoff : (off / 4096) * 4096 = off := by omega
      simp only [if_pos hd, hoff, ← hd.2]
      by_cases hok : dr.ok off len <;> simp [hok, hd.1, Except.isOk, Except.toBool]
    · simp only [if_neg hd]
      by_cases hok : dr.ok ((off / 4096) * 4096) (((off + len + 4095) / 4096 - off / 4096) * 4096)
        <;> simp [hok, Except.isOk, Except.toBool, Except.map]
  · intro r hr
    unfold read_offset readAt at hr
    simp only [h0, if_false] at hr
    by_cases hd : off % 4096 = 0 ∧ len = ((off + len + 4095) / 4096 - off / 4096) * 4096
    · simp only [if_pos hd] at hr
      by_cases hok : dr.ok off len
      · simp only [hok, if_pos] at hr
        cases hr
        have hoff : (off / 4096) * 4096 = off := by omega
        constructor
        · simp
        · rw [hoff, ← hd.2, hd.1]
          rw [deviceBytes_slice dr.data off len 0 len (by omega)]
          simp
      · simp [hok] at hr
    · simp only [if_neg hd] at hr
      by_cases hok : dr.ok ((off / 4096) * 4096) (((off + len + 4095) / 4096 - off / 4096) * 4096)
      · simp only [hok, if_pos, Except.map] at hr
        cases hr
        constructor
        · rw [deviceBytes_slice dr.data _ _ _ _ hbound]
          simp
        · rfl
      · simp [hok, Except.map] at hr
  · intro ha hb
    have hsz : len = ((off + len + 4095) / 4096 - off / 4096) * 4096 := by omega
    unfold read_offset_call
    simp only [if_pos (And.intro ha hsz)]

/-- Test driver: identity data, every request accepted. -/
def drAll : Driver := ⟨fun i => i % 256, fun _ _ => true⟩

theorem C1_block_alignment_witness :
    (read_offset drAll 5 3).isOk = drAll.ok 0 4096 := by
  have h := C1_block_alignment drAll 5 3 (by decide)
  simpa using h.1

/-! Write path of the block facade. -/

/-- `BlockClient::write_at`: store `bytes` at byte offsets
`[off, off + bytes.length)` of the device. -/
def writeAt (d : Disk) (off : Nat) (bytes : List Nat) : Disk :=
  fun i => if off ≤ i ∧ i < off + bytes.length then bytes.getD (i - off) 0 else d i

/-- `BlockReader::write_blocks` (src/fatfs/src/block.rs:82 and
src/extfs/src/block.rs:83): `sector` is a 512-byte LBA; unaligned
requests are read-modify-written over the enclosing 4096-byte blocks. -/
def write_blocks (d : Disk) (sector : Nat) (b : List Nat) : Disk :=
  let off := sector * 512
  let blockSize := 4096
  let startBlock := off / blockSize
  let endBlock := (off + b.length + (blockSize - 1)) / blockSize
  let readSize := (endBlock - startBlock) * blockSize
  if off % blockSize = 0 ∧ b.length = readSize then
    writeAt d off b
  else
    let temp := deviceBytes d (startBlock * blockSize) readSize
    let temp2 := (temp.take (off % blockSize)) ++ b
      ++ temp.drop (off % blockSize + b.length)
    writeAt d (startBlock * blockSize) temp2

theorem deviceBytes_take (d : Disk) (a n c : Nat) (h : c ≤ n) :
    (deviceBytes d a n).take c = deviceBytes d a c := by
  have := deviceBytes_slice d a n 0 c (by omega)
  simpa using this

theorem deviceBytes_drop (d : Disk) (a n i : Nat) (h : i ≤ n) :
    (deviceBytes d a n).drop i = deviceBytes d (a + i) (n - i) := by
  apply List.ext_getElem
  · simp [deviceBytes]
  · intro j h1 h2
    have hj : j < n - i := by simpa [deviceBytes] using h2
    simp only [List.getElem_drop]
    rw [deviceBytes_getElem d a n (i + j) (by simp; omega),
      deviceBytes_getElem d (a + i) (n - i) j (by simpa using hj)]
    ring_nf

theorem deviceBytes_getD (d : Disk) (a n i : Nat) (h : i < n) :
    (deviceBytes d a n).getD i 0 = d (a + i) := by
  rw [List.getD_eq_getElem _ _ (by simpa using h)]
  exact deviceBytes_getElem d a n i (by simpa using h)

theorem getD_append_left {l1 l2 : List Nat} {i : Nat} (h : i < l1.length) :
    (l1 ++ l2).getD i 0 = l1.getD i 0 := by
  rw [List.getD_eq_getElem _ _ (by simp; omega), List.getD_eq_getElem _ _ h]
  exact List.getElem_append_left h

theorem getD_append_right {l1 l2 : List Nat} {i : Nat} (h : l1.length ≤ i) :
    (l1 ++ l2).getD i 0 = l2.getD (i - l1.length) 0 := by
  by_cases h2 : i - l1.length < l2.length
  · rw [List.getD_eq_getElem _ _ (by simp; omega), List.getD_eq_getElem _ _ h2]
    rw [List.getElem_append_right h]
  · rw [List.getD_eq_default _ _ (by simp; omega), List.getD_eq_default _ _ (by omega)]

/-- C8: `write_blocks(s, b)` stores `b` at device bytes
`[s*512, s*512 + b.length)`, leaves every other byte of the device (in
particular of the enclosing 4096-byte blocks) unchanged, and writing
twice then reading the range back yields `b` regardless of the previous
content. -/
theorem C8_write_blocks_frame (d : Disk) (s : Nat) (b : List Nat) :
    (∀ i, i < b.length → write_blocks d s b (s * 512 + i) = b.getD i 0)
    ∧ (∀ j, j < s * 512 ∨ s * 512 + b.length ≤ j → write_blocks d s b j = d j)
    ∧ deviceBytes (write_blocks (write_blocks d s b) s b) (s * 512) b.length = b := by
  have hmain : ∀ (d' : Disk),
      (∀ i, i < b.length → write_blocks d' s b (s * 512 + i) = b.getD i 0)
      ∧ (∀ j, j < s * 512 ∨ s * 512 + b.length ≤ j → write_blocks d' s b j = d' j) := by
    intro d'
    set off := s * 512 with hoffdef
    set L := b.length with hLdef
    set A := (off / 4096) * 4096 with hAdef
    set readSize := ((off + L + 4095) / 4096 - off / 4096) * 4096 with hRdef
    have hAle : A ≤ off := by omega
    have hcs : off % 4096 = off - A := by omega
    have hbound : off % 4096 + L ≤ readSize := by omega
    constructor
    · intro i hi
      unfold write_blocks
      by_cases hd : off % 4096 = 0 ∧ L = readSize
      · simp only [← hoffdef, ← hLdef, ← hRdef, if_pos hd, writeAt]
        rw [if_pos (by omega)]
        congr 1
        omega
      · simp only [← hoffdef, ← hLdef, ← hRdef, if_neg hd, writeAt]
        have hlen2 : ((deviceBytes d' A readSize).take (off % 4096) ++ b
            ++ (deviceBytes d' A readSize).drop (off % 4096 + L)).length = readSize := by
          simp only [List.length_append, List.length_take, List.length_drop,
            deviceBytes_length]
          omega
        rw [← hAdef, if_pos (by rw [hlen2]; omega)]
        rw [List.append_assoc]
        rw [getD_append_right (by simp only [List.length_take, deviceBytes_length]; omega)]
        rw [getD_append_left (by simp only [List.length_take, deviceBytes_length]; omega)]
        congr 1
        simp only [List.length_take, deviceBytes_length]
        omega
    · intro j hj
      unfold write_blocks
      by_cases hd : off % 4096 = 0 ∧ L = readSize
      · simp only [← hoffdef, ← hLdef, ← hRdef, if_pos hd, writeAt]
        rw [if_neg (by omega)]
      · simp only [← hoffdef, ← hLdef, ← hRdef, if_neg hd, writeAt]
        rw [← hAdef]
        have hlen2 : ((deviceBytes d' A readSize).take (off % 4096) ++ b
            ++ (deviceBytes d' A readSize).drop (off % 4096 + L)).length = readSize := by
          simp only [List.length_append, List.length_take, List.length_drop,
            deviceBytes_length]
          omega
        by_cases hin : A ≤ j ∧ j < A + ((deviceBytes d' A readSize).take (off % 4096) ++ b
            ++ (deviceBytes d' A readSize).drop (off % 4096 + L)).length

        · rw [if_pos hin]
          rw [hlen2] at hin
          rw [List.append_assoc]
          rw [deviceBytes_take d' A readSize (off % 4096) (by omega)]
          rw [deviceBytes_drop d' A readSize (off % 4096 + L) hbound]
          by_cases hlow : j - A < off % 4096
          · rw [getD_append_left (by simp only [deviceBytes_length]; omega)]
            have hg := deviceBytes_getD d' A (off % 4096) (j - A) (by omega)
            rw [hg]
            have harg : A + (j - A) = j := by omega
            rw [harg]
          · have hhigh : off % 4096 + L ≤ j - A := by omega
            rw [getD_append_right (by simp only [deviceBytes_length]; omega)]
            rw [getD_append_right (by simp only [deviceBytes_length, ← hLdef]; omega)]
            simp only [deviceBytes_length, ← hLdef]
            have hg2 := deviceBytes_getD d' (A + (off % 4096 + L))
              (readSize - (off % 4096 + L)) (j - A - off % 4096 - L) (by omega)
            rw [hg2]
            have harg : A + (off % 4096 + L) + (j - A - off % 4096 - L) = j := by omega
            rw [harg]
        · rw [if_neg hin]
  refine ⟨(hmain d).1, (hmain d).2, ?_⟩
  apply List.ext_getElem
  · simp
  · intro i h1 h2
    rw [deviceBytes_getElem _ _ _ i (by simpa using h1)]
    rw [(hmain (write_blocks d s b)).1 i h2]
    exact List.getD_eq_getElem b 0 h2

theorem C8_write_blocks_frame_witness :
    write_blocks (fun _ => 7) 1 [1, 2, 3] (1 * 512 + 0) = [1, 2, 3].getD 0 0 :=
  (C8_write_blocks_frame (fun _ => 7) 1 [1, 2, 3]).1 0 (by decide)

/-! Initrd engine. -/

/-- Modelled from the spec: `glenda::client::volume::VolumeClient::read_at`
is not part of this repository's sources (only its caller in
src/initrdfs/src/fs.rs is).  §4.4 states that reads are serviced from
device offset `entry.offset + rel_off` and §4.1 that the device's native
unit is a 4096-byte block, so the volume client's
`read_at(sector, len, buf)` is modelled as reading `len` bytes starting
at byte offset `sector × 4096` of the device. -/
def volumeReadAt (d : Disk) (sector len : Nat) : List Nat :=
  deviceBytes d (sector * 4096) len

/-- `InitrdFile::read` (src/initrdfs/src/fs.rs:34): read from an open
initrd handle with entry offset `fileOff` and size `size`.  Returns the
count and the bytes placed in the caller's buffer of length `bufLen`. -/
def initrdFileRead (d : Disk) (fileOff size off bufLen : Nat) : Nat × List Nat :=
  if size ≤ off then (0, []) else
  let available := size - off
  let readLen := min available bufLen
  let blockSize := 4096
  let startPos := fileOff + off
  let endPos := startPos + readLen
  let startSector := startPos / blockSize
  let endSector := (endPos + (blockSize - 1)) / blockSize
  let sectorCount := endSector - startSector
  let readSize := sectorCount * blockSize
  let temp := volumeReadAt d startSector readSize
  let copyStart := startPos % blockSize
  let actualRead := min readLen bufLen
  (actualRead, (temp.drop copyStart).take actualRead)

/-- C6: for every open initrd handle with entry offset `fileOff` and
size `size`, a read of `bufLen` bytes at relative offset `off < size`
returns `min bufLen (size - off)` bytes which are exactly the device
bytes starting at `fileOff + off`. -/
theorem C6_initrd_read (d : Disk) (fileOff size off bufLen : Nat) (h : off < size) :
    initrdFileRead d fileOff size off bufLen
      = (min bufLen (size - off), deviceBytes d (fileOff + off) (min bufLen (size - off))) := by
  have hle : ¬ size ≤ off := by omega
  unfold initrdFileRead volumeReadAt
  simp only [if_neg hle]
  have hmin2 : min (min (size - off) bufLen) bufLen = min bufLen (size - off) := by omega
  rw [hmin2]
  have hcount : min (size - off) bufLen = min bufLen (size - off) := by omega
  rw [hcount]
  have hbound : (fileOff + off) % 4096 + min bufLen (size - off)
      ≤ (((fileOff + off) + min bufLen (size - off) + (4096 - 1)) / 4096
          - (fileOff + off) / 4096) * 4096 := by
    omega
  rw [deviceBytes_slice d _ _ _ _ hbound]
  have harg : (fileOff + off) / 4096 * 4096 + (fileOff + off) % 4096 = fileOff + off := by
    omega
  rw [harg]

theorem C6_initrd_read_witness :
    initrdFileRead (fun i => i % 256) 8192 100 10 50
      = (50, deviceBytes (fun i => i % 256) 8202 50) := by
  have h := C6_initrd_read (fun i => i % 256) 8192 100 10 50 (by decide)
  simpa using h

/-! Little-endian field decoding shared by the Ext and FAT engines. -/

/-- Little-endian value of a byte list (least significant byte first). -/
def leVal : List Nat → Nat
  | [] => 0
  | b :: rest => b % 256 + 256 * leVal rest

/-- Read an `n`-byte little-endian field at byte offset `off` of `bytes`. -/
def readLE (bytes : List Nat) (off n : Nat) : Nat :=
  leVal ((bytes.drop off).take n)

/-- Read a little-endian u32 at absolute device offset `off`. -/
def readU32 (d : Disk) (off : Nat) : Nat :=
  leVal (deviceBytes d off 4)

/-! Ext filesystem engine: block-map translation (Ext2/Ext3). -/

/-- On-disk Ext inode fields used by logical-to-physical translation
(src/extfs/src/defs/ext4.rs:129): `i_block` is the raw 60-byte area. -/
structure Inode where
  i_flags : Nat
  i_block : List Nat

/-- `Ext2Ops::resolve_indirect` (src/extfs/src/versions/ext2.rs:9): read
one u32 pointer out of an indirect block.  Also returns the device
offset that was read, so that disk accesses can be counted. -/
def resolve_indirect (d : Disk) (block index blockSize : Nat) : Nat × Nat :=
  let off := block * blockSize + index * 4
  (readU32 d off, off)

/-- The `i`-th 32-bit entry of the inode's `i_block` area, read
little-endian (the `[u32; 15]` cast in ext2.rs:29). -/
def iBlockWord (ino : Inode) (i : Nat) : Nat :=
  readLE ino.i_block (4 * i) 4

/-- `Ext2Ops::get_block_addr_map` (src/extfs/src/versions/ext2.rs:22):
direct / single / double / triple indirect translation.  Returns the
physical block number together with the list of device offsets read
from indirect blocks, in order. -/
def get_block_addr_map (d : Disk) (ino : Inode) (lblock blockSize : Nat) :
    Nat × List Nat :=
  if lblock < 12 then (iBlockWord ino lblock, []) else
  let P := blockSize / 4
  let r1 := lblock - 12
  if r1 < P then
    let ib := iBlockWord ino 12
    if ib = 0 then (0, []) else
    let v := resolve_indirect d ib r1 blockSize
    (v.1, [v.2])
  else
  let r2 := r1 - P
  if r2 < P * P then
    let dib := iBlockWord ino 13
    if dib = 0 then (0, []) else
    let firstIdx := r2 / P
    let secondIdx := r2 % P
    let v1 := resolve_indirect d dib firstIdx blockSize
    if v1.1 = 0 then (0, [v1.2]) else
    let v2 := resolve_indirect d v1.1 secondIdx blockSize
    (v2.1, [v1.2, v2.2])
  else
  let r3 := r2 - P * P
  let tib := iBlockWord ino 14
  if tib = 0 then (0, []) else
  let firstIdx := r3 / (P * P)
  let rem := r3 % (P * P)
  let secondIdx := rem / P
  let thirdIdx := rem % P
  let v1 := resolve_indirect d tib firstIdx blockSize
  if v1.1 = 0 then (0, [v1.2]) else
  let v2 := resolve_indirect d v1.1 secondIdx blockSize
  if v2.1 = 0 then (0, [v1.2, v2.2]) else
  let v3 := resolve_indirect d v2.1 thirdIdx blockSize
  (v3.1, [v1.2, v2.2, v3.2])

/-- C3: with `P = blockSize / 4`, the Ext2/Ext3 block map resolves
`L < 12` directly from `i_block[L]`, `12 ≤ L < 12 + P` through the
single-indirect entry 12, `12 + P ≤ L < 12 + P + P²` through the
double-indirect entry 13, and anything larger through the
triple-indirect entry 14, with per-level indices given by
quotient/remainder of `L - (start of range)` by powers of `P`; a zero
pointer at any level yields physical block 0 with no further disk
reads (the returned offset trace stops there). -/
theorem C3_ext2_indirection (d : Disk) (ino : Inode) (L bs : Nat) :
    (L < 12 → get_block_addr_map d ino L bs = (iBlockWord ino L, []))
    ∧ (12 ≤ L → L < 12 + bs / 4 →
        get_block_addr_map d ino L bs =
          if iBlockWord ino 12 = 0 then (0, [])
          else (readU32 d (iBlockWord ino 12 * bs + (L - 12) * 4),
                [iBlockWord ino 12 * bs + (L - 12) * 4]))
    ∧ (12 + bs / 4 ≤ L → L < 12 + bs / 4 + (bs / 4) * (bs / 4) →
        get_block_addr_map d ino L bs =
          if iBlockWord ino 13 = 0 then (0, [])
          else
            let o1 := iBlockWord ino 13 * bs + ((L - (12 + bs / 4)) / (bs / 4)) * 4
            let b1 := readU32 d o1
            if b1 = 0 then (0, [o1])
            else (readU32 d (b1 * bs + ((L - (12 + bs / 4)) % (bs / 4)) * 4),
                  [o1, b1 * bs + ((L - (12 + bs / 4)) % (bs / 4)) * 4]))
    ∧ (12 + bs / 4 + (bs / 4) * (bs / 4) ≤ L →
        get_block_addr_map d ino L bs =
          if iBlockWord ino 14 = 0 then (0, [])
          else
            let t := L - (12 + bs / 4 + (bs / 4) * (bs / 4))
            let o1 := iBlockWord ino 14 * bs + (t / ((bs / 4) * (bs / 4))) * 4
            let b1 := readU32 d o1
            if b1 = 0 then (0, [o1])
            else
              let o2 := b1 * bs + ((t % ((bs / 4) * (bs / 4))) / (bs / 4)) * 4
              let b2 := readU32 d o2
              if b2 = 0 then (0, [o1, o2])
              else (readU32 d (b2 * bs + ((t % ((bs / 4) * (bs / 4))) % (bs / 4)) * 4),
                    [o1, o2, b2 * bs + ((t % ((bs / 4) * (bs / 4))) % (bs / 4)) * 4])) := by
  refine ⟨?_, ?_, ?_, ?_⟩
  · intro h
    simp only [get_block_addr_map]
    rw [if_pos h]
  · intro h1 h2
    simp only [get_block_addr_map, resolve_indirect]
    rw [if_neg (by omega), if_pos (by omega)]
  · intro h1 h2
    have e1 : L - 12 - bs / 4 = L - (12 + bs / 4) := by omega
    simp only [get_block_addr_map, resolve_indirect]
    rw [if_neg (by omega), if_neg (by omega), if_pos (by omega), e1]
  · intro h1
    have e1 : L - 12 - bs / 4 - (bs / 4) * (bs / 4)
        = L - (12 + bs / 4 + (bs / 4) * (bs / 4)) := by omega
    simp only [get_block_addr_map, resolve_indirect]
    rw [if_neg (by omega), if_neg (by omega), if_neg (by omega), e1]

/-- Test disk for the triple-indirect walk: indirect pointers at the
offsets visited by the spec's Ext2 scenario. -/
def dExt2 : Disk := fun i =>
  if i = 102400 then 7
  else if i = 7168 then 9
  else if i = 9236 then 210
  else if i = 9237 then 4
  else 0

/-- Test inode: `i_block[0..13] = 0`, `i_block[14] = 100`. -/
def inoExt2 : Inode :=
  { i_flags := 0, i_block := List.replicate 56 0 ++ [100, 0, 0, 0] }

theorem C3_ext2_indirection_witness :
    get_block_addr_map dExt2 inoExt2 65809 1024 = (1234, [102400, 7168, 9236]) := by
  have h := (C3_ext2_indirection dExt2 inoExt2 65809 1024).2.2.2 (by decide)
  rw [h]
  decide

/-! Ext filesystem engine: extent-tree translation (Ext4). -/

/-- Parsed `ExtentHeader` (src/extfs/src/defs/ext4.rs:158); the fields
the lookup uses. -/
structure ExtentHeader where
  eh_magic : Nat
  eh_entries : Nat
  eh_depth : Nat

/-- Decode an `ExtentHeader` from the first 12 bytes of a node. -/
def parseExtentHeader (data : List Nat) : ExtentHeader :=
  { eh_magic := readLE data 0 2
    eh_entries := readLE data 2 2
    eh_depth := readLE data 6 2 }

/-- Parsed `Extent` leaf record (src/extfs/src/defs/ext4.rs:168). -/
structure Extent where
  ee_block : Nat
  ee_len : Nat
  ee_start_hi : Nat
  ee_start_lo : Nat

/-- Decode an `Extent` at byte offset `off` of a node. -/
def parseExtent (data : List Nat) (off : Nat) : Extent :=
  { ee_block := readLE data off 4
    ee_len := readLE data (off + 4) 2
    ee_start_hi := readLE data (off + 6) 2
    ee_start_lo := readLE data (off + 8) 4 }

/-- Parsed `ExtentIndex` internal record (src/extfs/src/defs/ext4.rs:177). -/
structure ExtentIndex where
  ei_block : Nat
  ei_leaf_lo : Nat
  ei_leaf_hi : Nat

/-- Decode an `ExtentIndex` at byte offset `off` of a node. -/
def parseExtentIndex (data : List Nat) (off : Nat) : ExtentIndex :=
  { ei_block := readLE data off 4
    ei_leaf_lo := readLE data (off + 4) 4
    ei_leaf_hi := readLE data (off + 8) 2 }

/-- The `eh_entries` extent records of a leaf node, 12 bytes each,
starting after the 12-byte header. -/
def leafEntries (data : List Nat) (n : Nat) : List Extent :=
  (List.range n).map (fun i => parseExtent data (12 + 12 * i))

/-- The `eh_entries` index records of an internal node. -/
def idxEntries (data : List Nat) (n : Nat) : List ExtentIndex :=
  (List.range n).map (fun i => parseExtentIndex data (12 + 12 * i))

/-- The leaf scan of `Ext4Ops::search_extent_block`
(src/extfs/src/versions/ext4.rs:33): first extent whose range contains
`L`. -/
def findLeafExtent (L : Nat) : List Extent → Option Extent
  | [] => none
  | e :: rest =>
    if e.ee_block ≤ L ∧ L < e.ee_block + e.ee_len then some e
    else findLeafExtent L rest

/-- The internal-node scan of `Ext4Ops::search_extent_block`
(src/extfs/src/versions/ext4.rs:48): first index entry with
`ei_block ≤ L` whose successor's `ei_block` exceeds `L` (`u32::MAX`
standing for the missing successor of the last entry). -/
def findIdxEntry (L : Nat) : List ExtentIndex → Option ExtentIndex
  | [] => none
  | [x] => if x.ei_block ≤ L ∧ L < 4294967295 then some x else none
  | x :: y :: rest =>
    if x.ei_block ≤ L ∧ L < y.ei_block then some x
    else findIdxEntry L (y :: rest)

/-- `Ext4Ops::search_extent_block` (src/extfs/src/versions/ext4.rs:14):
resolve one node of the extent tree. -/
def search_extent_block (data : List Nat) (lblock : Nat) : Except Err Nat :=
  let h := parseExtentHeader data
  if h.eh_magic ≠ 0xF30A then .error .DeviceError
  else if h.eh_depth = 0 then
    match findLeafExtent lblock (leafEntries data h.eh_entries) with
    | some e =>
        .ok (((e.ee_start_hi <<< 32) ||| e.ee_start_lo) + (lblock - e.ee_block))
    | none => .ok 0
  else
    match findIdxEntry lblock (idxEntries data h.eh_entries) with
    | some ix => .ok ((ix.ei_leaf_hi <<< 32) ||| ix.ei_leaf_lo)
    | none => .ok 0

/-- The descent loop of `Ext4Ops::get_block_addr`
(src/extfs/src/versions/ext4.rs:129): run `fuel` iterations of
`while curr_depth > 0 { read node; search; }`, then return the final
physical block truncated to u32. -/
def ext4Loop (d : Disk) (bs L : Nat) : Nat → Nat → Except Err Nat
  | 0, currPhys => .ok (currPhys % 2 ^ 32)
  | k + 1, currPhys =>
    match search_extent_block (deviceBytes d (currPhys * bs) bs) L with
    | .error e => .error e
    | .ok next => if next = 0 then .ok 0 else ext4Loop d bs L k next

/-- `Ext4Ops::get_block_addr` (src/extfs/src/versions/ext4.rs:80):
extent-flag dispatch, root-node checks, then the descent loop. -/
def ext4_get_block_addr (d : Disk) (ino : Inode) (lblock bs : Nat) : Except Err Nat :=
  if ino.i_flags &&& 0x80000 = 0 then .ok (get_block_addr_map d ino lblock bs).1
  else
  let root := ino.i_block
  let h := parseExtentHeader root
  if h.eh_magic ≠ 0xF30A then .error .DeviceError
  else if 4096 < bs then .error .MessageTooLong
  else if h.eh_depth = 0 then
    (search_extent_block root lblock).map (· % 2 ^ 32)
  else
    match search_extent_block root lblock with
    | .error e => .error e
    | .ok next => if next = 0 then .ok 0 else ext4Loop d bs lblock h.eh_depth next

/-- Spec reading of the leaf case (§4.2 step 2): the extent containing
`L` gives `((phys_hi << 32) | phys_lo) + (L - first)`; no match is a
hole. -/
def claimLeafLookup (L : Nat) (node : List Nat) : Except Err Nat :=
  match findLeafExtent L (leafEntries node (parseExtentHeader node).eh_entries) with
  | some e => .ok (((e.ee_start_hi <<< 32) ||| e.ee_start_lo) + (L - e.ee_block))
  | none => .ok 0

/-- Spec reading of extent resolution (§4.2): verify the 0xF30A magic
on every node; at a leaf use `claimLeafLookup`; at an internal node
descend through the index entry whose `first ≤ L` and whose successor's
first exceeds `L`, a zero child pointer being a hole.  `fuel` bounds
the descent depth. -/
def claimDescend (d : Disk) (bs L : Nat) : Nat → List Nat → Except Err Nat
  | 0, node =>
    let h := parseExtentHeader node
    if h.eh_magic ≠ 0xF30A then .error .DeviceError
    else if h.eh_depth = 0 then claimLeafLookup L node
    else .ok 0
  | fuel + 1, node =>
    let h := parseExtentHeader node
    if h.eh_magic ≠ 0xF30A then .error .DeviceError
    else if h.eh_depth = 0 then claimLeafLookup L node
    else
      match findIdxEntry L (idxEntries node h.eh_entries) with
      | some ix =>
        if ((ix.ei_leaf_hi <<< 32) ||| ix.ei_leaf_lo) = 0 then .ok 0
        else claimDescend d bs L fuel
          (deviceBytes d (((ix.ei_leaf_hi <<< 32) ||| ix.ei_leaf_lo) * bs) bs)
      | none => .ok 0

/-- Depth consistency along the descent path for logical block `L`:
each visited node's stored `eh_depth` equals its expected level. -/
def consistB (d : Disk) (bs L : Nat) : Nat → List Nat → Bool
  | 0, node => (parseExtentHeader node).eh_depth == 0
  | k + 1, node =>
    ((parseExtentHeader node).eh_depth == k + 1) &&
    (match findIdxEntry L (idxEntries node (parseExtentHeader node).eh_entries) with
     | none => true
     | some ix =>
       (((ix.ei_leaf_hi <<< 32) ||| ix.ei_leaf_lo) == 0)
         || consistB d bs L k
             (deviceBytes d (((ix.ei_leaf_hi <<< 32) ||| ix.ei_leaf_lo) * bs) bs))

theorem claimDescend_magic (d : Disk) (bs L fuel : Nat) (node : List Nat)
    (hm : (parseExtentHeader node).eh_magic ≠ 0xF30A) :
    claimDescend d bs L fuel node = .error .DeviceError := by
  cases fuel <;> simp [claimDescend, hm]

theorem claimDescend_leaf (d : Disk) (bs L fuel : Nat) (node : List Nat)
    (hdep : (parseExtentHeader node).eh_depth = 0) :
    claimDescend d bs L fuel node = search_extent_block node L := by
  by_cases hm : (parseExtentHeader node).eh_magic ≠ 0xF30A
  · rw [claimDescend_magic d bs L fuel node hm]
    simp [search_extent_block, hm]
  · cases fuel <;>
      simp [claimDescend, search_extent_block, hm, hdep, claimLeafLookup]

theorem ext4Loop_eq_claimDescend (d : Disk) (bs L : Nat) :
    ∀ k c, consistB d bs L k (deviceBytes d (c * bs) bs) = true →
      ext4Loop d bs L (k + 1) c
        = (claimDescend d bs L k (deviceBytes d (c * bs) bs)).map (· % 2 ^ 32) := by
  intro k
  induction k with
  | zero =>
    intro c hc
    have hdep : (parseExtentHeader (deviceBytes d (c * bs) bs)).eh_depth = 0 := by
      simpa [consistB] using hc
    rw [claimDescend_leaf d bs L 0 _ hdep]
    show (match search_extent_block (deviceBytes d (c * bs) bs) L with
      | .error e => .error e
      | .ok next => if next = 0 then .ok 0 else ext4Loop d bs L 0 next)
      = (search_extent_block (deviceBytes d (c * bs) bs) L).map (· % 2 ^ 32)
    cases hres : search_extent_block (deviceBytes d (c * bs) bs) L with
    | error e => simp [Except.map]
    | ok v =>
      by_cases hv : v = 0
      · simp [hv, Except.map]
      · simp [hv, Except.map, ext4Loop]
  | succ k ih =>
    intro c hc
    have hcc : (parseExtentHeader (deviceBytes d (c * bs) bs)).eh_depth = k + 1
        ∧ (match findIdxEntry L (idxEntries (deviceBytes d (c * bs) bs)
              (parseExtentHeader (deviceBytes d (c * bs) bs)).eh_entries) with
           | none => true
           | some ix =>
             (((ix.ei_leaf_hi <<< 32) ||| ix.ei_leaf_lo) == 0)
               || consistB d bs L k
                   (deviceBytes d (((ix.ei_leaf_hi <<< 32) ||| ix.ei_leaf_lo) * bs) bs))
            = true := by
      simpa [consistB] using hc
    have hc1 := hcc.1
    have hc2 := hcc.2
    by_cases hm : (parseExtentHeader (deviceBytes d (c * bs) bs)).eh_magic ≠ 0xF30A
    · rw [claimDescend_magic d bs L (k + 1) _ hm]
      show (match search_extent_block (deviceBytes d (c * bs) bs) L with
        | .error e => .error e
        | .ok next => if next = 0 then .ok 0 else ext4Loop d bs L (k + 1) next)
        = Except.map (· % 2 ^ 32) (.error .DeviceError)
      simp [search_extent_block, hm, Except.map]
    · have hsearch : search_extent_block (deviceBytes d (c * bs) bs) L
          = match findIdxEntry L (idxEntries (deviceBytes d (c * bs) bs)
              (parseExtentHeader (deviceBytes d (c * bs) bs)).eh_entries) with
            | some ix => .ok ((ix.ei_leaf_hi <<< 32) ||| ix.ei_leaf_lo)
            | none => .ok 0 := by
        simp [search_extent_block, hm, hc1]
      have hdesc : claimDescend d bs L (k + 1) (deviceBytes d (c * bs) bs)
          = match findIdxEntry L (idxEntries (deviceBytes d (c * bs) bs)
              (parseExtentHeader (deviceBytes d (c * bs) bs)).eh_entries) with
            | some ix =>
              if ((ix.ei_leaf_hi <<< 32) ||| ix.ei_leaf_lo) = 0 then .ok 0
              else claimDescend d bs L k
                (deviceBytes d (((ix.ei_leaf_hi <<< 32) ||| ix.ei_leaf_lo) * bs) bs)
            | none => .ok 0 := by
        simp [claimDescend, hm, hc1]
      show (match search_extent_block (deviceBytes d (c * bs) bs) L with
        | .error e => .error e
        | .ok next => if next = 0 then .ok 0 else ext4Loop d bs L (k + 1) next)
        = (claimDescend d bs L (k + 1) (deviceBytes d (c * bs) bs)).map (· % 2 ^ 32)
      rw [hsearch, hdesc]
      cases hfind : findIdxEntry L (idxEntries (deviceBytes d (c * bs) bs)
          (parseExtentHeader (deviceBytes d (c * bs) bs)).eh_entries) with
      | none => simp [Except.map]
      | some ix =>
        by_cases hz : ((ix.ei_leaf_hi <<< 32) ||| ix.ei_leaf_lo) = 0
        · simp [hz, Except.map]
        · simp only [hz, if_neg, if_false]
          rw [hfind] at hc2
          have hrec : consistB d bs L k
              (deviceBytes d (((ix.ei_leaf_hi <<< 32) ||| ix.ei_leaf_lo) * bs) bs) = true := by
            rcases Bool.or_eq_true _ _ |>.mp hc2 with h | h
            · exact absurd (by simpa using h) hz
            · exact h
          exact ih _ hrec

/-- C2 (amended): for every Ext4 inode with the extents flag set,
mounted block size at most 4096, and an extent tree whose node depths
are consistent along the descent path, `get_block_addr` returns the
spec's descent result — `((phys_hi << 32) | phys_lo) + (L - first)` at
the covering leaf extent, 0 for holes and zero child pointers, and
`DeviceError` for a wrong magic anywhere on the path — truncated to
32 bits by the u32 return type. -/
theorem C2_ext4_extent_lookup (d : Disk) (ino : Inode) (L bs : Nat)
    (hflag : ino.i_flags &&& 0x80000 ≠ 0) (hbs : bs ≤ 4096)
    (hcons : consistB d bs L (parseExtentHeader ino.i_block).eh_depth ino.i_block
        = true) :
    ext4_get_block_addr d ino L bs
      = (claimDescend d bs L (parseExtentHeader ino.i_block).eh_depth ino.i_block).map
          (· % 2 ^ 32) := by
  unfold ext4_get_block_addr
  rw [if_neg hflag]
  by_cases hm : (parseExtentHeader ino.i_block).eh_magic ≠ 0xF30A
  · rw [if_pos hm, claimDescend_magic d bs L _ _ hm]
    simp [Except.map]
  · rw [if_neg hm, if_neg (by omega)]
    cases hdep : (parseExtentHeader ino.i_block).eh_depth with
    | zero =>
      rw [if_pos rfl, claimDescend_leaf d bs L 0 _ hdep]
    | succ k =>
      rw [if_neg (by omega)]
      rw [hdep] at hcons
      have hcc : (parseExtentHeader ino.i_block).eh_depth = k + 1
          ∧ (match findIdxEntry L (idxEntries ino.i_block
                (parseExtentHeader ino.i_block).eh_entries) with
             | none => true
             | some ix =>
               (((ix.ei_leaf_hi <<< 32) ||| ix.ei_leaf_lo) == 0)
                 || consistB d bs L k
                     (deviceBytes d (((ix.ei_leaf_hi <<< 32) ||| ix.ei_leaf_lo) * bs) bs))
              = true := by
        simpa [consistB] using hcons
      have hsearch : search_extent_block ino.i_block L
          = match findIdxEntry L (idxEntries ino.i_block
              (parseExtentHeader ino.i_block).eh_entries) with
            | some ix => .ok ((ix.ei_leaf_hi <<< 32) ||| ix.ei_leaf_lo)
            | none => .ok 0 := by
        simp [search_extent_block, hm, hdep]
      have hdesc : claimDescend d bs L (k + 1) ino.i_block
          = match findIdxEntry L (idxEntries ino.i_block
              (parseExtentHeader ino.i_block).eh_entries) with
            | some ix =>
              if ((ix.ei_leaf_hi <<< 32) ||| ix.ei_leaf_lo) = 0 then .ok 0
              else claimDescend d bs L k
                (deviceBytes d (((ix.ei_leaf_hi <<< 32) ||| ix.ei_leaf_lo) * bs) bs)
            | none => .ok 0 := by
        simp [claimDescend, hm, hdep]
      rw [hsearch, hdesc]
      cases hfind : findIdxEntry L (idxEntries ino.i_block
          (parseExtentHeader ino.i_block).eh_entries) with
      | none => simp [Except.map]
      | some ix =>
        by_cases hz : ((ix.ei_leaf_hi <<< 32) ||| ix.ei_leaf_lo) = 0
        · simp [hz, Except.map]
        · simp only [hz, if_neg, if_false]
          have hc2 := hcc.2
          rw [hfind] at hc2
          have hrec : consistB d bs L k
              (deviceBytes d (((ix.ei_leaf_hi <<< 32) ||| ix.ei_leaf_lo) * bs) bs)
                = true := by
            rcases Bool.or_eq_true _ _ |>.mp hc2 with h | h
            · exact absurd (by simpa using h) hz
            · exact h
          exact ext4Loop_eq_claimDescend d bs L k _ hrec

instance {α : Type} [DecidableEq α] : DecidableEq (Except Err α) := fun a b =>
  match a, b with
  | .ok x, .ok y => if h : x = y then .isTrue (by rw [h]) else .isFalse (by simp [h])
  | .ok _, .error _ => .isFalse (by simp)
  | .error _, .ok _ => .isFalse (by simp)
  | .error x, .error y =>
    if h : x = y then .isTrue (by rw [h]) else .isFalse (by simp [h])

/-- An all-zero device. -/
def dZero : Disk := fun _ => 0

/-- Extents-flag inode whose root is a depth-0 node with a single
extent `{first = 0, len = 1, phys_hi = 1, phys_lo = 0}`, so the 64-bit
physical address of logical block 0 is `2^32`. -/
def inoTrunc : Inode :=
  { i_flags := 0x80000
    i_block := [10, 243, 1, 0, 4, 0, 0, 0, 0, 0, 0, 0,
                0, 0, 0, 0, 1, 0, 1, 0, 0, 0, 0, 0] ++ List.replicate 36 0 }

/-- C2 counterexample: the u32 return truncates the 64-bit physical
address, so the claim's untruncated formula does not hold when
`phys_hi ≠ 0`, and a mounted block size above 4096 yields
`MessageTooLong` instead of a descent result. -/
theorem C2_ext4_extent_lookup_counterexample :
    ext4_get_block_addr dZero inoTrunc 0 4096 = .ok 0
    ∧ ¬ ext4_get_block_addr dZero inoTrunc 0 4096
        = .ok (((1 <<< 32) ||| 0) + (0 - 0))
    ∧ ext4_get_block_addr dZero inoTrunc 0 8192 = .error .MessageTooLong := by
  decide

/-- Device carrying the spec's depth-1 extent scenario: a leaf node at
block 2 (block size 1024) with extents `{0, 4, phys 1000}` and
`{4, 8, phys 2000}`. -/
def dC2 : Disk := fun i =>
  if i = 2048 then 10 else if i = 2049 then 243
  else if i = 2050 then 2
  else if i = 2052 then 4
  else if i = 2064 then 4
  else if i = 2068 then 232 else if i = 2069 then 3
  else if i = 2072 then 4
  else if i = 2076 then 8
  else if i = 2080 then 208 else if i = 2081 then 7
  else 0

/-- Extents-flag inode whose root is a depth-1 node with one index
entry `{first = 0, leaf = 2}`. -/
def inoC2 : Inode :=
  { i_flags := 0x80000
    i_block := [10, 243, 1, 0, 4, 0, 1, 0, 0, 0, 0, 0,
                0, 0, 0, 0, 2, 0, 0, 0, 0, 0, 0, 0] ++ List.replicate 36 0 }

theorem C2_ext4_extent_lookup_witness :
    ext4_get_block_addr dC2 inoC2 6 1024 = .ok 2002 := by
  have h := C2_ext4_extent_lookup dC2 inoC2 6 1024 (by decide) (by decide) (by decide)
  rw [h]
  decide

/-! FAT filesystem engine: mount-time dialect selection. -/

/-- The FAT dialect tags. -/
inductive FatDialect where
  | Fat16
  | Fat32
  | ExFat
deriving DecidableEq, Repr

/-- The mount-time profile built by `FatFs::new`
(src/fatfs/src/fs.rs:66): one constructor per `FatOps`
implementation, carrying its fields. -/
inductive FatProfile where
  | exfat (bytes_per_sector sectors_per_cluster fat_start_sector
      data_start_sector root_cluster : Nat)
  | fat16 (bytes_per_sector sectors_per_cluster fat_start_sector
      root_start_sector root_entries data_start_sector : Nat)
  | fat32 (bytes_per_sector sectors_per_cluster fat_start_sector
      data_start_sector root_cluster : Nat)
deriving DecidableEq, Repr

/-- The dialect of a profile. -/
def fatDialectOf : FatProfile → FatDialect
  | .exfat .. => .ExFat
  | .fat16 .. => .Fat16
  | .fat32 .. => .Fat32

/-- Bytes 3..11 of sector 0: the OEM name. -/
def oemNameOf (s : List Nat) : List Nat := (s.drop 3).take 8

/-- ASCII `"EXFAT   "`. -/
def exfatOem : List Nat := [69, 88, 70, 65, 84, 32, 32, 32]

/-- `count_of_clusters` as computed by `FatFs::new`
(src/fatfs/src/fs.rs:91): the BPB arithmetic of §4.3. -/
def countOfClustersOf (s : List Nat) : Nat :=
  let bps := if readLE s 11 2 = 0 then 512 else readLE s 11 2
  let rootEnt := readLE s 17 2
  let fatSz := if readLE s 22 2 ≠ 0 then readLE s 22 2 else readLE s 36 4
  let totSec := if readLE s 19 2 ≠ 0 then readLE s 19 2 else readLE s 32 4
  let rootDirSectors := (rootEnt * 32 + (bps - 1)) / bps
  let dataSec := totSec - (readLE s 14 2 + readLE s 16 1 * fatSz + rootDirSectors)
  dataSec / readLE s 13 1

/-- The BPB parse and dialect selection of `FatFs::new`
(src/fatfs/src/fs.rs:66-127), as a pure function of boot sector 0
(`count_of_clusters` factored out as `countOfClustersOf`). -/
def mkFatProfile (s : List Nat) : FatProfile :=
  if oemNameOf s = exfatOem then
    .exfat (1 <<< readLE s 108 1) (1 <<< readLE s 109 1)
      (readLE s 64 8 + readLE s 80 4) (readLE s 64 8 + readLE s 88 4)
      (readLE s 96 4)
  else if countOfClustersOf s < 65525 then
    .fat16 (if readLE s 11 2 = 0 then 512 else readLE s 11 2)
      (readLE s 13 1) (readLE s 14 2)
      (readLE s 14 2 + readLE s 16 1
        * (if readLE s 22 2 ≠ 0 then readLE s 22 2 else readLE s 36 4))
      (readLE s 17 2)
      (readLE s 14 2 + readLE s 16 1
        * (if readLE s 22 2 ≠ 0 then readLE s 22 2 else readLE s 36 4)
        + (readLE s 17 2 * 32
            + ((if readLE s 11 2 = 0 then 512 else readLE s 11 2) - 1))
          / (if readLE s 11 2 = 0 then 512 else readLE s 11 2))
  else
    .fat32 (if readLE s 11 2 = 0 then 512 else readLE s 11 2)
      (readLE s 13 1) (readLE s 14 2)
      (readLE s 14 2 + readLE s 16 1
        * (if readLE s 22 2 ≠ 0 then readLE s 22 2 else readLE s 36 4))
      (readLE s 44 4)

/-- C4: the selected dialect is a pure function of the OEM name and
`count_of_clusters`; OEM `"EXFAT   "` selects exFAT regardless of
cluster count; otherwise `count_of_clusters < 65525` selects FAT16 with
the sector-region root at `rsvd_sec_cnt + num_fats * fat_size`, and
`≥ 65525` selects FAT32 rooted at `root_clus`. -/
theorem C4_fat_dialect_selection (s : List Nat) :
    (∀ s2, oemNameOf s = oemNameOf s2 →
        countOfClustersOf s = countOfClustersOf s2 →
        fatDialectOf (mkFatProfile s) = fatDialectOf (mkFatProfile s2))
    ∧ (oemNameOf s = exfatOem → fatDialectOf (mkFatProfile s) = .ExFat)
    ∧ (oemNameOf s ≠ exfatOem → countOfClustersOf s < 65525 →
        mkFatProfile s =
          .fat16 (if readLE s 11 2 = 0 then 512 else readLE s 11 2)
            (readLE s 13 1) (readLE s 14 2)
            (readLE s 14 2 + readLE s 16 1
              * (if readLE s 22 2 ≠ 0 then readLE s 22 2 else readLE s 36 4))
            (readLE s 17 2)
            (readLE s 14 2 + readLE s 16 1
              * (if readLE s 22 2 ≠ 0 then readLE s 22 2 else readLE s 36 4)
              + (readLE s 17 2 * 32
                  + ((if readLE s 11 2 = 0 then 512 else readLE s 11 2) - 1))
                / (if readLE s 11 2 = 0 then 512 else readLE s 11 2)))
    ∧ (oemNameOf s ≠ exfatOem → 65525 ≤ countOfClustersOf s →
        mkFatProfile s =
          .fat32 (if readLE s 11 2 = 0 then 512 else readLE s 11 2)
            (readLE s 13 1) (readLE s 14 2)
            (readLE s 14 2 + readLE s 16 1
              * (if readLE s 22 2 ≠ 0 then readLE s 22 2 else readLE s 36 4))
            (readLE s 44 4)) := by
  refine ⟨?_, ?_, ?_, ?_⟩
  · intro s2 hoem hcount
    unfold mkFatProfile
    by_cases hex : oemNameOf s = exfatOem
    · have hex2 : oemNameOf s2 = exfatOem := by rw [← hoem]; exact hex
      rw [if_pos hex, if_pos hex2]
      rfl
    · have hex2 : ¬ oemNameOf s2 = exfatOem := by rw [← hoem]; exact hex
      rw [if_neg hex, if_neg hex2]
      by_cases h16 : countOfClustersOf s < 65525
      · have h16b : countOfClustersOf s2 < 65525 := by rw [← hcount]; exact h16
        rw [if_pos h16, if_pos h16b]
        rfl
      · have h16b : ¬ countOfClustersOf s2 < 65525 := by rw [← hcount]; exact h16
        rw [if_neg h16, if_neg h16b]
        rfl
  · intro hex
    unfold mkFatProfile
    rw [if_pos hex]
    rfl
  · intro hex hcnt
    unfold mkFatProfile
    rw [if_neg hex, if_pos hcnt]
  · intro hex hcnt
    unfold mkFatProfile
    rw [if_neg hex, if_neg (by omega)]

/-- A FAT16 boot sector: 512-byte sectors, 1 sector per cluster,
1 reserved sector, 2 FATs of 16 sectors, 512 root entries, 4096 total
sectors. -/
def fat16Sector : List Nat :=
  List.replicate 11 0 ++ [0, 2, 1, 1, 0, 2, 0, 2, 0, 16, 0, 16, 0]

theorem C4_fat_dialect_selection_witness :
    mkFatProfile fat16Sector = .fat16 512 1 1 33 512 65 := by
  have h := (C4_fat_dialect_selection fat16Sector).2.2.1 (by decide) (by decide)
  rw [h]
  decide

/-! FAT filesystem engine: FAT entry fetch and cluster chains. -/

/-- `Fat16Ops::get_next_cluster` (src/fatfs/src/versions/fat16.rs:15):
read the 16-bit FAT entry of `cluster`; raw values `≥ 0xFFF8` are
normalised to the FAT32 end-of-chain convention `0x0FFFFFFF`. -/
def fat16_get_next_cluster (d : Disk) (bps fatStart cluster : Nat) : Except Err Nat :=
  let fatOffset := cluster * 2
  let fatSectorOffset := fatOffset / bps
  let entryOffset := fatOffset % bps
  let sector := fatStart + fatSectorOffset
  let buf := deviceBytes d (sector * bps) bps
  let val := readLE buf entryOffset 2
  if 0xFFF8 ≤ val then .ok 0x0FFFFFFF else .ok val

/-- `Fat32Ops::get_next_cluster` (src/fatfs/src/versions/fat32.rs:14):
read the 32-bit FAT entry, masked to the low 28 bits. -/
def fat32_get_next_cluster (d : Disk) (bps fatStart cluster : Nat) : Except Err Nat :=
  let fatOffset := cluster * 4
  let fatSectorOffset := fatOffset / bps
  let entryOffset := fatOffset % bps
  let sector := fatStart + fatSectorOffset
  let buf := deviceBytes d (sector * bps) bps
  .ok (readLE buf entryOffset 4 &&& 0x0FFFFFFF)

/-- `FatFs::get_cluster_chain` (src/fatfs/src/fs.rs:134) with `fuel`
bounding the loop (the Rust loop runs unboundedly on a cyclic FAT);
`none` means the fuel ran out. -/
def get_cluster_chain (next : Nat → Except Err Nat) :
    Nat → Nat → Option (Except Err (List Nat))
  | 0, _ => none
  | fuel + 1, curr =>
    if curr < 2 then some (.ok []) else
    match next curr with
    | .error e => some (.error e)
    | .ok n =>
      if 0x0FFFFFF8 ≤ n then some (.ok [curr])
      else if n = 0x0FFFFFF7 then some (.error .IoError)
      else (get_cluster_chain next fuel n).map (fun r => r.map (curr :: ·))

/-- A FAT16 table (512-byte sectors, FAT at sector 0) whose entry for
cluster 2 is the bad-cluster sentinel 0xFFF7, and whose entry for
cluster 0xFFF7 is end-of-chain. -/
def dFat16bad : Disk := fun i =>
  if i = 4 then 0xF7 else if i = 5 then 0xFF
  else if i = 131054 then 0xF8 else if i = 131055 then 0xFF
  else 0

/-- C5: the chain walk stops on end-of-chain (FAT16 raw `≥ 0xFFF8`
normalised first) and fails with `IoError` on the bad-cluster value
`0x0FFFFFF7` — but the FAT16 bad-cluster sentinel 0xFFF7 is *not*
normalised, so `get_cluster_chain` treats it as an ordinary next
cluster and continues the chain instead of failing: starting from
cluster 2 with `FAT16[2] = 0xFFF7` the walk returns `Ok [2, 0xFFF7]`. -/
theorem C5_fat16_bad_cluster_missed :
    fat16_get_next_cluster dFat16bad 512 0 2 = .ok 0xFFF7
    ∧ get_cluster_chain (fun c => fat16_get_next_cluster dFat16bad 512 0 c) 10 2
        = some (.ok [2, 0xFFF7])
    ∧ (0xFFF7 : Nat) ≠ 0x0FFFFFF7 := by
  refine ⟨by decide, ?_, by decide⟩
  decide

/-! Request servers: handle table and dispatch. -/

/-- The handle-directed opcodes of the filesystem protocol. -/
inductive FsOp where
  | readSync
  | stat
  | close
  | setupIouring
  | processIouring
deriving DecidableEq, Repr

/-- `BTreeMap::get` on the handle table (keys are handle ids). -/
def lookupH {α : Type} (hs : List (Nat × α)) (id : Nat) : Option α :=
  (hs.find? (fun p => p.1 == id)).map (fun p => p.2)

/-- `BTreeMap::remove`. -/
def removeH {α : Type} (hs : List (Nat × α)) (id : Nat) : List (Nat × α) :=
  hs.filter (fun p => ¬ p.1 == id)

/-- In-place update of the handle under `id` (a `get_mut` that ends in
a mutated handle). -/
def updateH {α : Type} (hs : List (Nat × α)) (id : Nat) (h2 : α) : List (Nat × α) :=
  hs.map (fun p => if p.1 == id then (p.1, h2) else p)

/-- `InitrdServer::dispatch` (src/initrdfs/src/server.rs:213), the five
handle-directed arms; `act` abstracts the per-handle operation (which
may mutate the handle).  Returns the reply outcome and the new handle
table: a missing badge is `InvalidArgs` in every arm, and CLOSE removes
the entry. -/
def initrdDispatch {α : Type} (hs : List (Nat × α)) (op : FsOp) (badge : Nat)
    (act : FsOp → α → Except Err α) : Except Err Unit × List (Nat × α) :=
  match op with
  | .close =>
    match lookupH hs badge with
    | none => (.error .InvalidArgs, hs)
    | some h =>
      match act .close h with
      | .error e => (.error e, removeH hs badge)
      | .ok _ => (.ok (), removeH hs badge)
  | op =>
    match lookupH hs badge with
    | none => (.error .InvalidArgs, hs)
    | some h =>
      match act op h with
      | .error e => (.error e, hs)
      | .ok h2 => (.ok (), updateH hs badge h2)

/-- The READ_SYNC arm of `FatFsService::dispatch`
(src/fatfs/src/server.rs:131): a missing handle id is answered with
`NotFound`. -/
def fatReadSyncDispatch {α : Type} (hs : List (Nat × α)) (id : Nat)
    (act : α → Except Err α) : Except Err Unit × List (Nat × α) :=
  match lookupH hs id with
  | none => (.error .NotFound, hs)
  | some h =>
    match act h with
    | .error e => (.error e, hs)
    | .ok h2 => (.ok (), updateH hs id h2)

/-- C7 counterexample: the FAT server's READ_SYNC arm answers a missing
handle id with `NotFound`, not `InvalidArgs` as the claim states. -/
theorem C7_missing_handle_counterexample :
    fatReadSyncDispatch ([] : List (Nat × Unit)) 1 (fun h => .ok h)
      = (.error .NotFound, [])
    ∧ Err.NotFound ≠ Err.InvalidArgs := by
  decide

/-- C7 (amended): for a handle id absent from the table, the initrd
server answers every handle-directed request (READ_SYNC, STAT, CLOSE,
SETUP_IOURING, PROCESS_IOURING) with `InvalidArgs` and the FAT server's
READ_SYNC answers with `NotFound`; in both servers the handle table is
left unchanged. -/
theorem C7_missing_handle {α : Type} (hs : List (Nat × α)) (id : Nat)
    (hmiss : lookupH hs id = none) :
    (∀ op act, initrdDispatch hs op id act = (.error .InvalidArgs, hs))
    ∧ (∀ act, fatReadSyncDispatch hs id act = (.error .NotFound, hs)) := by
  constructor
  · intro op act
    cases op <;> simp [initrdDispatch, hmiss]
  · intro act
    simp [fatReadSyncDispatch, hmiss]

theorem C7_missing_handle_witness :
    initrdDispatch ([(2, ())] : List (Nat × Unit)) .readSync 1 (fun _ h => .ok h)
      = (.error .InvalidArgs, [(2, ())]) :=
  (C7_missing_handle [(2, ())] 1 (by decide)).1 .readSync (fun _ h => .ok h)

/-! Path resolution: Ext `resolve_path` and FAT `lookup`. -/

/-- Rust's `str::split('/')` on a path as a character list: every run
between two separators becomes a component, empty components included. -/
def splitSlash : List Char → List (List Char)
  | [] => [[]]
  | c :: rest =>
    if c = '/' then [] :: splitSlash rest
    else
      match splitSlash rest with
      | [] => [[c]]
      | p :: ps => (c :: p) :: ps

theorem splitSlash_ne_nil : ∀ l : List Char, splitSlash l ≠ []
  | [] => by simp [splitSlash]
  | c :: rest => by
    by_cases hc : c = '/'
    · simp [splitSlash, hc]
    · simp only [splitSlash, if_neg hc]
      cases h : splitSlash rest <;> simp

theorem splitSlash_cons_slash (xs : List Char) :
    splitSlash ('/' :: xs) = [] :: splitSlash xs := by
  simp [splitSlash]

theorem splitSlash_append (a s : List Char) :
    splitSlash (a ++ '/' :: s) = splitSlash a ++ splitSlash s := by
  induction a with
  | nil => simp [splitSlash]
  | cons c rest ih =>
    by_cases hc : c = '/'
    · simp [splitSlash, hc, ih]
    · simp only [List.cons_append, splitSlash, if_neg hc, ih]
      cases h : splitSlash rest with
      | nil => exact absurd h (splitSlash_ne_nil rest)
      | cons p ps =>
        simp only [List.append_eq]
        rw [ih, h]
        simp

theorem splitSlash_dot_slash (b : List Char) :
    splitSlash ('.' :: '/' :: b) = ['.'] :: splitSlash b := by
  simp [splitSlash]

/-- The loop of `ExtFs::resolve_path` (src/extfs/src/fs.rs:156):
follow `find_entry` (abstracted as `find`) through the components. -/
def extResolveLoop (find : Nat → List Char → Except Err Nat) :
    Nat → List (List Char) → Except Err Nat
  | ino, [] => .ok ino
  | ino, p :: ps =>
    match find ino p with
    | .error e => .error e
    | .ok next => extResolveLoop find next ps

/-- `ExtFs::resolve_path`: split on `/`, skip empty and `"."`
components, walk from the root inode 2. -/
def extResolvePath (find : Nat → List Char → Except Err Nat)
    (path : List Char) : Except Err Nat :=
  extResolveLoop find 2
    ((splitSlash path).filter (fun p => ! (p.isEmpty || p == ['.'])))

/-- The FAT short directory entry fields used by `lookup`
(src/fatfs/src/defs.rs:48). -/
structure FatDirEntry where
  attr : Nat
  fst_clus_hi : Nat
  fst_clus_lo : Nat
  file_size : Nat
deriving DecidableEq, Repr

/-- `RootLocation` (src/fatfs/src/ops.rs): a cluster-rooted or
sector-region directory. -/
inductive RootLocation where
  | Cluster (c : Nat)
  | Sector (start count : Nat)
deriving DecidableEq, Repr

/-- The synthetic root entry `FatFs::lookup` returns for an empty
component list (src/fatfs/src/fs.rs:275). -/
def fatRootEntry : FatDirEntry :=
  { attr := 0x10, fst_clus_hi := 0, fst_clus_lo := 0, file_size := 0 }

/-- The component loop of `FatFs::lookup` (src/fatfs/src/fs.rs:310):
non-final components must carry the directory attribute; descend into
`(fst_clus_hi << 16) | fst_clus_lo`. -/
def fatLookupLoop (find : RootLocation → List Char → Except Err FatDirEntry) :
    RootLocation → List (List Char) → Except Err FatDirEntry
  | _, [] => .ok fatRootEntry
  | loc, [p] => find loc p
  | loc, p :: q :: rest =>
    match find loc p with
    | .error e => .error e
    | .ok entry =>
      if entry.attr &&& 0x10 = 0 then .error .NotSupported
      else fatLookupLoop find
        (.Cluster ((entry.fst_clus_hi <<< 16) ||| entry.fst_clus_lo)) (q :: rest)

/-- `FatFs::lookup` (src/fatfs/src/fs.rs:271): split on `/`, discard
only empty components, then walk from the root location. -/
def fatLookup (find : RootLocation → List Char → Except Err FatDirEntry)
    (root : RootLocation) (path : List Char) : Except Err FatDirEntry :=
  match (splitSlash path).filter (fun p => ! p.isEmpty) with
  | [] => .ok fatRootEntry
  | ps => fatLookupLoop find root ps

/-- A directory tree for the counterexample: the root cluster 0 has a
directory `a` at cluster 5, which contains only the file `b`. -/
def findC9 : RootLocation → List Char → Except Err FatDirEntry := fun loc name =>
  match loc, name with
  | .Cluster 0, ['a'] => .ok ⟨0x10, 0, 5, 0⟩
  | .Cluster 5, ['b'] => .ok ⟨0x20, 0, 9, 100⟩
  | _, _ => .error .NotFound

/-- C9 counterexample: FAT `lookup` filters only empty components, so
`"/a/./b"` looks up a `"."` entry inside `a` and fails with `NotFound`
while `"/a/b"` succeeds — the two resolutions differ. -/
theorem C9_path_resolution_counterexample :
    fatLookup findC9 (.Cluster 0) ['/', 'a', '/', 'b']
      ≠ fatLookup findC9 (.Cluster 0) ['/', 'a', '/', '.', '/', 'b'] := by
  decide

/-- C9 (amended): Ext path resolution is insensitive to empty and `"."`
components — `resolve("/a/b")`, `resolve("/a/./b")` and
`resolve("//a//b")` agree for every `find_entry` behaviour — while FAT
`lookup` discards only empty components, so it is insensitive to extra
slashes (`"/a/b"` versus `"//a//b"`) but treats `"."` as an ordinary
component name. -/
theorem C9_path_resolution (find : Nat → List Char → Except Err Nat)
    (ffind : RootLocation → List Char → Except Err FatDirEntry)
    (root : RootLocation) (a b : List Char) :
    (extResolvePath find ('/' :: (a ++ '/' :: b))
        = extResolvePath find ('/' :: (a ++ '/' :: '.' :: '/' :: b))
      ∧ extResolvePath find ('/' :: (a ++ '/' :: b))
        = extResolvePath find ('/' :: '/' :: (a ++ '/' :: '/' :: b)))
    ∧ fatLookup ffind root ('/' :: (a ++ '/' :: b))
        = fatLookup ffind root ('/' :: '/' :: (a ++ '/' :: '/' :: b)) := by
  have h1 : splitSlash ('/' :: (a ++ '/' :: b))
      = [] :: (splitSlash a ++ splitSlash b) := by
    rw [splitSlash_cons_slash, splitSlash_append]
  have h2 : splitSlash ('/' :: (a ++ '/' :: '.' :: '/' :: b))
      = [] :: (splitSlash a ++ (['.'] :: splitSlash b)) := by
    rw [splitSlash_cons_slash, splitSlash_append, splitSlash_dot_slash]
  have h3 : splitSlash ('/' :: '/' :: (a ++ '/' :: '/' :: b))
      = [] :: [] :: (splitSlash a ++ ([] :: splitSlash b)) := by
    rw [splitSlash_cons_slash, splitSlash_cons_slash, splitSlash_append,
      splitSlash_cons_slash]
  refine ⟨⟨?_, ?_⟩, ?_⟩
  · unfold extResolvePath
    rw [h1, h2]
    simp [List.filter_append]
  · unfold extResolvePath
    rw [h1, h3]
    simp [List.filter_append]
  · unfold fatLookup
    rw [h1, h3]
    simp [List.filter_append]

/-! FAT file handle: read paths. -/

/-- Cluster geometry shared by `Fat16Ops`, `Fat32Ops` and `ExFatOps`. -/
structure FatGeom where
  bytes_per_sector : Nat
  sectors_per_cluster : Nat
  data_start_sector : Nat

/-- `cluster_to_sector` (identical in src/fatfs/src/versions/fat16.rs:40,
fat32.rs:31, exfat.rs:56): clusters below 2 map to the data start. -/
def cluster_to_sector (g : FatGeom) (cluster : Nat) : Nat :=
  let rel := if 2 ≤ cluster then cluster - 2 else 0
  g.data_start_sector + rel * g.sectors_per_cluster

/-- The chain walk of `FatFileHandle::get_cluster_by_pos`
(src/fatfs/src/fs.rs:395): step `k` times from `curr`; a premature
end-of-chain is an `IoError`. -/
def clusterWalk (next : Nat → Except Err Nat) : Nat → Nat → Except Err Nat
  | 0, curr => .ok curr
  | k + 1, curr =>
    match next curr with
    | .error e => .error e
    | .ok n => if 0x0FFFFFF8 ≤ n then .error .IoError else clusterWalk next k n

/-- `FatFileHandle::get_cluster_by_pos`: the cluster containing byte
position `pos` of the file. -/
def get_cluster_by_pos (next : Nat → Except Err Nat) (g : FatGeom)
    (firstCluster pos : Nat) : Except Err Nat :=
  let clusterSize := g.sectors_per_cluster * g.bytes_per_sector
  clusterWalk next (pos / clusterSize) firstCluster

/-- The while-loop of `FatFileHandle::read` (src/fatfs/src/fs.rs:458):
locate each chunk's cluster and read it through the block facade.  The
loop advances by at least one byte per iteration, so `fuel = readLen`
suffices; exhausted fuel is reported as `Unknown`. -/
def fatReadLoop (dr : Driver) (next : Nat → Except Err Nat) (g : FatGeom)
    (firstCluster readLen : Nat) : Nat → Nat → Nat → Except Err Unit
  | 0, bufOffset, _ => if bufOffset < readLen then .error .Unknown else .ok ()
  | fuel + 1, bufOffset, pos =>
    if readLen ≤ bufOffset then .ok () else
    let clusterSize := g.sectors_per_cluster * g.bytes_per_sector
    match get_cluster_by_pos next g firstCluster pos with
    | .error e => .error e
    | .ok cluster =>
      let clusterOffset := pos % clusterSize
      let bytesToRead := min (readLen - bufOffset) (clusterSize - clusterOffset)
      let sectorInCluster := clusterOffset / g.bytes_per_sector
      let sectorOffset := clusterOffset % g.bytes_per_sector
      let targetSector := cluster_to_sector g cluster + sectorInCluster
      let absOffset := targetSector * g.bytes_per_sector + sectorOffset
      match read_offset dr absOffset bytesToRead with
      | .error e => .error e
      | .ok _ => fatReadLoop dr next g firstCluster readLen fuel
          (bufOffset + bytesToRead) (pos + bytesToRead)

/-- `FatFileHandle::read` (src/fatfs/src/fs.rs:444): clamp at end of
file, then drive the chunk loop; on success the byte count is the
clamped `read_len`. -/
def fatHandleRead (dr : Driver) (next : Nat → Except Err Nat) (g : FatGeom)
    (firstCluster size offset bufLen : Nat) : Except Err Nat :=
  if size ≤ offset then .ok 0 else
  let readLen := min bufLen (size - offset)
  if readLen = 0 then .ok 0 else
  match fatReadLoop dr next g firstCluster readLen readLen 0 offset with
  | .error e => .error e
  | .ok _ => .ok readLen

/-- `BlockReader::read_shm`: zero-copy read into shared memory; succeeds
when the driver accepts the request. -/
def readShm (dr : Driver) (off len : Nat) : Except Err Unit :=
  if dr.ok off len then .ok () else .error .IoError

/-- The while-loop of `FatFileHandle::read_shm_internal`
(src/fatfs/src/fs.rs:422). -/
def fatReadShmLoop (dr : Driver) (next : Nat → Except Err Nat) (g : FatGeom)
    (firstCluster : Nat) : Nat → Nat → Nat → Except Err Unit
  | 0, remaining, _ => if 0 < remaining then .error .Unknown else .ok ()
  | fuel + 1, remaining, pos =>
    if remaining = 0 then .ok () else
    let clusterSize := g.sectors_per_cluster * g.bytes_per_sector
    match get_cluster_by_pos next g firstCluster pos with
    | .error e => .error e
    | .ok cluster =>
      let clusterOffset := pos % clusterSize
      let chunkLen := min remaining (clusterSize - clusterOffset)
      let absOffset := cluster_to_sector g cluster * g.bytes_per_sector + clusterOffset
      match readShm dr absOffset chunkLen with
      | .error e => .error e
      | .ok _ => fatReadShmLoop dr next g firstCluster fuel
          (remaining - chunkLen) (pos + chunkLen)

/-- `FatFileHandle::read_shm_internal` (src/fatfs/src/fs.rs:410): the
IO-ring read path; same end-of-file clamp, count is `read_len`. -/
def fatReadShmInternal (dr : Driver) (next : Nat → Except Err Nat) (g : FatGeom)
    (firstCluster size offset len : Nat) : Except Err Nat :=
  if size ≤ offset then .ok 0 else
  match fatReadShmLoop dr next g firstCluster (min len (size - offset))
      (min len (size - offset)) offset with
  | .error e => .error e
  | .ok _ => .ok (min len (size - offset))

/-- C10: both FAT read paths clamp at end of file: a request at
`offset ≥ size` returns 0 bytes for every driver and FAT content (no
device access), and any successful read returns exactly
`min bufLen (size - offset)` bytes, never more than `size - offset`. -/
theorem C10_fat_read_clamp (dr : Driver) (next : Nat → Except Err Nat)
    (g : FatGeom) (firstCluster size offset bufLen : Nat) :
    (size ≤ offset →
      fatHandleRead dr next g firstCluster size offset bufLen = .ok 0
      ∧ fatReadShmInternal dr next g firstCluster size offset bufLen = .ok 0)
    ∧ (∀ n, fatHandleRead dr next g firstCluster size offset bufLen = .ok n →
        n = min bufLen (size - offset) ∧ n ≤ size - offset)
    ∧ (∀ n, fatReadShmInternal dr next g firstCluster size offset bufLen = .ok n →
        n = min bufLen (size - offset) ∧ n ≤ size - offset) := by
  refine ⟨?_, ?_, ?_⟩
  · intro h
    unfold fatHandleRead fatReadShmInternal
    rw [if_pos h, if_pos h]
    exact ⟨rfl, rfl⟩
  · intro n hn
    unfold fatHandleRead at hn
    by_cases h : size ≤ offset
    · rw [if_pos h] at hn
      cases hn
      constructor <;> omega
    · rw [if_neg h] at hn
      by_cases h0 : min bufLen (size - offset) = 0
      · rw [if_pos h0] at hn
        cases hn
        constructor <;> omega
      · rw [if_neg h0] at hn
        cases hl : fatReadLoop dr next g firstCluster (min bufLen (size - offset))
            (min bufLen (size - offset)) 0 offset with
        | error e => rw [hl] at hn; cases hn
        | ok u =>
          rw [hl] at hn
          cases hn
          constructor
          · rfl
          · omega
  · intro n hn
    unfold fatReadShmInternal at hn
    by_cases h : size ≤ offset
    · rw [if_pos h] at hn
      cases hn
      constructor <;> omega
    · rw [if_neg h] at hn
      cases hl : fatReadShmLoop dr next g firstCluster (min bufLen (size - offset))
          (min bufLen (size - offset)) offset with
      | error e => rw [hl] at hn; cases hn
      | ok u =>
        rw [hl] at hn
        cases hn
        constructor
        · rfl
        · omega

theorem C10_fat_read_clamp_witness :
    fatHandleRead drAll (fun _ => .ok 3) ⟨512, 8, 32⟩ 3 100 120 10 = .ok 0
    ∧ fatReadShmInternal drAll (fun _ => .ok 3) ⟨512, 8, 32⟩ 3 100 120 10 = .ok 0 :=
  (C10_fat_read_clamp drAll (fun _ => .ok 3) ⟨512, 8, 32⟩ 3 100 120 10).1 (by decide)

end GlendaFs
